import Mathlib

/-!
Shallow embedding of the Gensler Adaptavolve dashboard (src/app.py):
the criteria table, the per-session score memory, the compatibility
scoring (line 90), the best-alternative selection (lines 91-93), the
conversion-hurdle ("gaps") ranking (lines 133-138), and the live-data
loader (lines 11-19).  Machine floats are modelled as rationals.  The
pandas `sort_values(ascending=False)` calls use the default
`kind='quicksort'`, which leaves the relative order of tied keys
unspecified; the model uses `List.mergeSort` as one concrete
descending sort, and no theorem below depends on which order tied
entries come out in.
-/

namespace Adaptavolve

/-- The four occupancy typologies of `program_options` (app.py line 24). -/
inductive Typology where
  | Housing
  | Education
  | Lab
  | DataCenter
deriving DecidableEq, Repr

/-- The list `program_options` (app.py line 24). -/
def program_options : List Typology :=
  [Typology.Housing, Typology.Education, Typology.Lab, Typology.DataCenter]

/-- One row of the criteria table: `Category`, `Criterion`,
`Scoring Notes (0-5)`, and one weight column per typology. -/
structure Row where
  category : String
  criterion : String
  scoringNotes : String
  weight : Typology → ℚ

/-- The loaded criteria table (the pandas DataFrame `df`). -/
abbrev DataFrame := List Row

/-- A per-typology score dictionary, criterion name to score
(`st.session_state.program_memory[p]`), as an insertion-ordered
association list, mirroring a Python dict. -/
abbrev ScoreSet := List (String × ℚ)

/-- Raw tabular data as fetched over HTTP, before column stripping. -/
structure RawTable where
  columns : List String
  rows : List (List String)

/-- The empty `pd.DataFrame()` returned on a failed load. -/
def emptyDataFrame : RawTable := ⟨[], []⟩

/-- The loader `load_live_data` (app.py lines 11-19): the fetch outcome
is passed in as an `Except`; on success the column names are stripped of
surrounding whitespace, on any failure the loader catches the exception,
emits the `st.error` warning text and returns an empty DataFrame. -/
def load_live_data (fetch : Except String RawTable) : RawTable × Option String :=
  match fetch with
  | Except.ok t => ({ columns := t.columns.map (fun c => c.trim), rows := t.rows }, none)
  | Except.error e => (emptyDataFrame, some ("Connection Error: " ++ e))

/-- Python dict insert-or-assign `m[n] = v`: replace the value at an
existing key in place, otherwise append the new key at the end. -/
def dictInsert : ScoreSet → String → ℚ → ScoreSet
  | [], n, v => [(n, v)]
  | (k, w) :: t, n, v => if k = n then (k, v) :: t else (k, w) :: dictInsert t n v

/-- The session-memory initialiser for one typology (app.py line 29):
`{row['Criterion']: 0 for _, row in df.iterrows()}`. -/
def initScores (df : DataFrame) : ScoreSet :=
  df.foldl (fun m r => dictInsert m r.criterion 0) []

/-- The full `st.session_state.program_memory` right after
initialisation from a non-empty table (app.py lines 27-29): one
identical zero-initialised ScoreSet per typology. -/
def program_memory (df : DataFrame) : Typology → ScoreSet :=
  fun _ => initScores df

/-- Effective score of a criterion name under a ScoreSet:
`df['Criterion'].map(scores)` followed by `.fillna(0)` (app.py line 90),
so a missing entry reads as 0. -/
def effScore (scores : ScoreSet) (name : String) : ℚ :=
  (scores.lookup name).getD 0

/-- The compatibility score of one typology (app.py line 90):
`(df['Criterion'].map(memory[p]).fillna(0) / 5 * df[f"{p} Weight"]).sum()`. -/
def compatibility (df : DataFrame) (scores : ScoreSet) (p : Typology) : ℚ :=
  (df.map (fun r => effScore scores r.criterion / 5 * r.weight p)).sum

/-- Descending comparison on the second component, the key used by
`sort_values("Compatibility"/"Impact", ascending=False)`. -/
def descBy2 {α : Type} (a b : α × ℚ) : Bool :=
  decide (b.2 ≤ a.2)

/-- The list `comparison_data` (app.py line 90): one
`(typology, compatibility)` pair per entry of `program_options`. -/
def comparison_data (df : DataFrame) (mem : Typology → ScoreSet) : List (Typology × ℚ) :=
  program_options.map (fun p => (p, compatibility df (mem p) p))

/-- The sorted frame `comp_df` (app.py line 91): `comparison_data`
sorted descending by compatibility.  The code's
`sort_values(ascending=False)` with the default quicksort does not
specify the order of tied rows; `mergeSort` here is just one concrete
choice, and the facts proved about `best_alt` hold for any order of
ties. -/
def comp_df (df : DataFrame) (mem : Typology → ScoreSet) : List (Typology × ℚ) :=
  (comparison_data df mem).mergeSort descBy2

/-- The recommendation `best_alt` (app.py line 93): the first row of
`comp_df` whose typology differs from the target. -/
def best_alt (df : DataFrame) (mem : Typology → ScoreSet) (target : Typology) :
    Option (Typology × ℚ) :=
  ((comp_df df mem).filter (fun x => decide (x.1 ≠ target))).head?

/-- The list `risk_data` (app.py lines 133-136): for every entry of the
target typology's ScoreSet, the pair `(criterion, (5 - score) * 20)`. -/
def risk_data (scores : ScoreSet) : List (String × ℚ) :=
  scores.map (fun cv => (cv.1, (5 - cv.2) * 20))

/-- The risk frame sorted descending by impact (app.py line 138, before
`head`).  As with `comp_df`, the code's default quicksort leaves the
order of equal impacts unspecified; `mergeSort` fixes one concrete
order for the model, and nothing proved below relies on how ties are
ordered (the worked example has no tied impacts). -/
def sortedRisk (scores : ScoreSet) : List (String × ℚ) :=
  (risk_data scores).mergeSort descBy2

/-- The gap ranking: `risk_data` sorted descending by impact and
truncated (app.py line 138 uses `head(5)`; the truncation length is kept
as a parameter). -/
def gaps (scores : ScoreSet) (top_n : Nat) : List (String × ℚ) :=
  (sortedRisk scores).take top_n

/-- The frame `risk_df` (app.py line 138): the top five gaps. -/
def risk_df (scores : ScoreSet) : List (String × ℚ) :=
  gaps scores 5

/-- Criterion A of the spec's worked example: Housing weight 60. -/
def exampleRowA : Row :=
  ⟨"Cat", "A", "", fun p => match p with | Typology.Housing => 60 | _ => 0⟩

/-- Criterion B of the spec's worked example: Housing weight 40. -/
def exampleRowB : Row :=
  ⟨"Cat", "B", "", fun p => match p with | Typology.Housing => 40 | _ => 0⟩

/-- The spec's worked-example criteria table. -/
def exampleDf : DataFrame := [exampleRowA, exampleRowB]

/-- The spec's worked-example scores: A scores 5, B scores 0. -/
def exampleScores : ScoreSet := [("A", 5), ("B", 0)]

/-- A score set giving the worked-example criteria full marks. -/
def fullScores : ScoreSet := [("A", 5), ("B", 5)]

/-- A score set giving the worked-example criteria zero marks. -/
def zeroScores : ScoreSet := [("A", 0), ("B", 0)]

/-- A criterion carrying a negative weight (nothing in the code rules it
out). -/
def negRow : Row := ⟨"Cat", "N", "", fun _ => -10⟩

/-- Scores for the negative-weight table. -/
def negScores : ScoreSet := [("N", 5)]

/-- A single criterion whose weight is 250 (weights summing to 100 is
only an assumption about the spreadsheet, not enforced). -/
def bigRow : Row := ⟨"Cat", "M", "", fun _ => 250⟩

/-- Scores for the single-criterion 250-weight table. -/
def bigScores : ScoreSet := [("M", 2)]

/-- Rewriting a running `foldl` accumulation as a mapped sum. -/
theorem list_foldl_add_sum (f : Row → ℚ) (l : List Row) : ∀ a : ℚ,
    l.foldl (fun acc r => acc + f r) a = a + (l.map f).sum := by
  induction l with
  | nil => intro a; simp
  | cons r t ih => intro a; simp only [List.foldl_cons, List.map_cons, List.sum_cons, ih]; ring

/-- A mapped sum of pointwise differences splits into two sums. -/
theorem sum_map_sub (l : List Row) (g h : Row → ℚ) :
    (l.map (fun x => g x - h x)).sum = (l.map g).sum - (l.map h).sum := by
  induction l with
  | nil => simp
  | cons r t ih => simp only [List.map_cons, List.sum_cons, ih]; ring

/-- A list of non-negative rationals summing to zero is all zeros. -/
theorem sum_eq_zero_of_nonneg (l : List ℚ) (h : ∀ x ∈ l, 0 ≤ x) (hs : l.sum = 0) :
    ∀ x ∈ l, x = 0 := by
  induction l with
  | nil => simp
  | cons a t ih =>
    have hta : 0 ≤ t.sum := List.sum_nonneg (fun x hx => h x (List.mem_cons_of_mem a hx))
    have ha : 0 ≤ a := h a (List.mem_cons_self a t)
    rw [List.sum_cons] at hs
    intro x hx
    rcases List.mem_cons.mp hx with rfl | hx
    · linarith
    · exact ih (fun y hy => h y (List.mem_cons_of_mem a hy)) (by linarith) x hx

/-- Transitivity of the descending comparison used by the sorts. -/
theorem descBy2_trans {α : Type} (a b c : α × ℚ) (h1 : descBy2 a b) (h2 : descBy2 b c) :
    descBy2 a c := by
  simp only [descBy2, decide_eq_true_eq] at *
  exact le_trans h2 h1

/-- Totality of the descending comparison used by the sorts. -/
theorem descBy2_total {α : Type} (a b : α × ℚ) : descBy2 a b || descBy2 b a := by
  simp only [descBy2, Bool.or_eq_true, decide_eq_true_eq]
  exact le_total b.2 a.2

/-- Evaluation of `risk_data` on the worked-example scores. -/
theorem risk_data_example : risk_data exampleScores = [("A", 0), ("B", 100)] := by
  simp [risk_data, exampleScores]
  norm_num

unseal List.merge List.mergeSort in
/-- Evaluation of the sorted risk frame on the worked-example scores. -/
theorem sortedRisk_example : sortedRisk exampleScores = [("B", 100), ("A", 0)] := by
  rw [sortedRisk, risk_data_example]
  rfl

/-- Evaluation of the top-1 gap on the worked-example scores. -/
theorem gaps_example : gaps exampleScores 1 = [("B", 100)] := by
  rw [gaps, sortedRisk_example]
  rfl

/-- C2: for every typology, `compatibility` is the raw weighted sum
of `(score / 5) * weight[typology]` over all criteria, treated directly
as the percentage; on the spec's worked example it equals 60. -/
theorem C2_compatibility_weighted_sum :
    (∀ (df : DataFrame) (scores : ScoreSet) (p : Typology),
      compatibility df scores p =
        df.foldl (fun acc r => acc + effScore scores r.criterion / 5 * r.weight p) 0) ∧
    compatibility exampleDf exampleScores Typology.Housing = 60 := by
  constructor
  · intro df scores p
    rw [compatibility, list_foldl_add_sum, zero_add]
  · have hA : effScore exampleScores "A" = 5 := rfl
    have hB : effScore exampleScores "B" = 0 := rfl
    simp [compatibility, exampleDf, exampleRowA, exampleRowB, hA, hB]

/-- C8: if every criterion's effective score is 5 and the typology's
weights sum to 100, then the compatibility is exactly 100. -/
theorem C8_full_scores_give_100 (df : DataFrame) (scores : ScoreSet) (p : Typology)
    (h5 : ∀ r ∈ df, effScore scores r.criterion = 5)
    (hw : (df.map (fun r => r.weight p)).sum = 100) :
    compatibility df scores p = 100 := by
  rw [compatibility]
  have h : df.map (fun r => effScore scores r.criterion / 5 * r.weight p)
      = df.map (fun r => r.weight p) :=
    List.map_congr_left (fun r hr => by rw [h5 r hr]; norm_num)
  rw [h, hw]

/-- Witness for C8 at the spec's worked-example criteria with full
scores. -/
theorem C8_full_scores_give_100_witness :
    compatibility exampleDf fullScores Typology.Housing = 100 :=
  C8_full_scores_give_100 exampleDf fullScores Typology.Housing (by decide)
    (by simp [exampleDf, exampleRowA, exampleRowB]; norm_num)

/-- C9: if every criterion's effective score is 0, the compatibility is
exactly 0 for every typology and criteria list. -/
theorem C9_zero_scores_give_0 (df : DataFrame) (scores : ScoreSet) (p : Typology)
    (h0 : ∀ r ∈ df, effScore scores r.criterion = 0) :
    compatibility df scores p = 0 := by
  rw [compatibility]
  have h : df.map (fun r => effScore scores r.criterion / 5 * r.weight p)
      = df.map (fun _ => (0 : ℚ)) :=
    List.map_congr_left (fun r hr => by rw [h0 r hr]; ring)
  rw [h]
  simp

/-- Witness for C9 at the spec's worked-example criteria with all-zero
scores. -/
theorem C9_zero_scores_give_0_witness :
    compatibility exampleDf zeroScores Typology.Housing = 0 :=
  C9_zero_scores_give_0 exampleDf zeroScores Typology.Housing (by decide)

/-- C5 counterexample: with a negative weight the compatibility is
negative even though all scores lie in `[0, 5]`, and a single criterion
of weight 250 scored 2 yields exactly 100 although its score is not 5
and the weights do not sum to 100; both halves of the claimed guarantee
fail on the code. -/
theorem C5_counterexample :
    ((∀ q ∈ negScores, 0 ≤ q.2 ∧ q.2 ≤ 5) ∧
      compatibility [negRow] negScores Typology.Housing < 0) ∧
    ((∀ q ∈ bigScores, 0 ≤ q.2 ∧ q.2 ≤ 5) ∧
      compatibility [bigRow] bigScores Typology.Housing = 100 ∧
      effScore bigScores "M" ≠ 5 ∧
      (([bigRow] : DataFrame).map (fun r => r.weight Typology.Housing)).sum ≠ 100) := by
  refine ⟨⟨by decide, ?_⟩, by decide, ?_, by decide, ?_⟩
  · simp [compatibility, effScore, negRow, negScores]
  · simp [compatibility, effScore, bigRow, bigScores]
    norm_num
  · simp [bigRow]

/-- C5 amended: when all weights of the typology are non-negative the
compatibility is a non-negative rational, and when moreover all those
weights are positive and sum to exactly 100, a compatibility of 100
forces every criterion's effective score to be 5. -/
theorem C5_amended_nonneg_and_100 (df : DataFrame) (scores : ScoreSet) (p : Typology)
    (hs : ∀ r ∈ df, 0 ≤ effScore scores r.criterion ∧ effScore scores r.criterion ≤ 5)
    (hw : ∀ r ∈ df, 0 ≤ r.weight p) :
    0 ≤ compatibility df scores p ∧
    ((∀ r ∈ df, 0 < r.weight p) → (df.map (fun r => r.weight p)).sum = 100 →
      compatibility df scores p = 100 → ∀ r ∈ df, effScore scores r.criterion = 5) := by
  constructor
  · apply List.sum_nonneg
    intro x hx
    obtain ⟨r, hr, rfl⟩ := List.mem_map.mp hx
    exact mul_nonneg (div_nonneg (hs r hr).1 (by norm_num)) (hw r hr)
  · intro hpos hsum hcomp r hr
    have hsub : (df.map (fun x => x.weight p - effScore scores x.criterion / 5 * x.weight p)).sum
        = (df.map (fun x => x.weight p)).sum
          - (df.map (fun x => effScore scores x.criterion / 5 * x.weight p)).sum :=
      sum_map_sub df _ _
    rw [compatibility] at hcomp
    have hzero : (df.map (fun x => x.weight p - effScore scores x.criterion / 5 * x.weight p)).sum
        = 0 := by rw [hsub, hsum, hcomp]; ring
    have hnn : ∀ x ∈ df.map (fun x => x.weight p - effScore scores x.criterion / 5 * x.weight p),
        0 ≤ x := by
      intro x hx
      obtain ⟨q, hq, rfl⟩ := List.mem_map.mp hx
      have h1 : effScore scores q.criterion ≤ 5 := (hs q hq).2
      have h2 : 0 ≤ q.weight p * (5 - effScore scores q.criterion) :=
        mul_nonneg (hw q hq) (by linarith)
      nlinarith
    have hall := sum_eq_zero_of_nonneg _ hnn hzero
    have hfr : r.weight p - effScore scores r.criterion / 5 * r.weight p = 0 :=
      hall _ (List.mem_map_of_mem _ hr)
    have hfac : r.weight p * (1 - effScore scores r.criterion / 5) = 0 := by
      rw [← hfr]; ring
    rcases mul_eq_zero.mp hfac with hcontra | hok
    · exact absurd hcontra (ne_of_gt (hpos r hr))
    · have : effScore scores r.criterion / 5 = 1 := by linarith
      field_simp at this
      linarith


/-- Witness for C5 amended: the worked example satisfies both
hypotheses, so its compatibility is non-negative. -/
theorem C5_amended_nonneg_witness :
    0 ≤ compatibility exampleDf exampleScores Typology.Housing :=
  (C5_amended_nonneg_and_100 exampleDf exampleScores Typology.Housing
    (by decide) (by decide)).1

/-- C1 counterexample: the code computes a gap impact of
`(5 - score) * 20` (app.py line 135), not `(5 - score) * weight`; on the
spec's worked example the top gap is `("B", 100)`, which differs from
the claimed `("B", 40)` and from `(5 - score) * weight = 200`. -/
theorem C1_counterexample :
    gaps exampleScores 1 = [("B", 100)] ∧
    (100 : ℚ) ≠ (5 - effScore exampleScores "B") * exampleRowB.weight Typology.Housing ∧
    gaps exampleScores 1 ≠ [("B", 40)] := by
  refine ⟨gaps_example, ?_, ?_⟩
  · have hB : effScore exampleScores "B" = 0 := rfl
    rw [hB]
    simp [exampleRowB]
    norm_num
  · rw [gaps_example]
    simp

/-- C1 amended: every entry of the gap ranking carries the impact
`(5 - score) * 20` of some scored criterion (the typology weights play
no part), and on the worked example the top-1 gap is `("B", 100)`. -/
theorem C1_gap_impact_formula :
    (∀ (scores : ScoreSet) (top_n : Nat), ∀ e ∈ gaps scores top_n,
      ∃ s, (e.1, s) ∈ scores ∧ e.2 = (5 - s) * 20) ∧
    gaps exampleScores 1 = [("B", 100)] := by
  constructor
  · intro scores top_n e he
    rw [gaps] at he
    have h1 : e ∈ sortedRisk scores := List.mem_of_mem_take he
    rw [sortedRisk] at h1
    have h2 : e ∈ risk_data scores := List.mem_mergeSort.mp h1
    obtain ⟨cv, hcv, rfl⟩ := List.mem_map.mp h2
    exact ⟨cv.2, by simpa using hcv, rfl⟩
  · exact gaps_example

/-- Witness for C1 amended at the worked example's top gap entry. -/
theorem C1_gap_impact_formula_witness :
    ∃ s, ((("B" : String), s) ∈ exampleScores ∧ (100 : ℚ) = (5 - s) * 20) :=
  C1_gap_impact_formula.1 exampleScores 1 ("B", 100)
    (by rw [gaps_example]; exact List.mem_singleton.mpr rfl)

/-- Every typology value occurs in `program_options`. -/
theorem mem_program_options (p : Typology) : p ∈ program_options := by
  cases p <;> simp [program_options]

/-- A typology different from any given one (the option list has four
distinct members, so one always exists). -/
def altTypology : Typology → Typology
  | Typology.Housing => Typology.Education
  | _ => Typology.Housing

/-- The alternative typology really differs from its argument. -/
theorem altTypology_ne (t : Typology) : altTypology t ≠ t := by
  cases t <;> simp [altTypology]

/-- The head of a pairwise-ordered list dominates every member. -/
theorem head_of_pairwise {α : Type} {R : α → α → Prop} {l : List α} {b x : α}
    (hp : l.Pairwise R) (hb : l.head? = some b) (hx : x ∈ l) : x = b ∨ R b x := by
  cases l with
  | nil => cases hx
  | cons a t =>
    have hba : a = b := by simpa using hb
    subst hba
    rcases List.mem_cons.mp hx with rfl | hxt
    · exact Or.inl rfl
    · exact Or.inr ((List.pairwise_cons.mp hp).1 x hxt)

/-- C3: `best_alt` always returns a row; that row's typology differs
from the target even when the target scores highest globally, its
percentage is that typology's own compatibility, and it dominates the
compatibility of every other non-target typology (ties go to the first
row after the stable descending sort, which is how `best_alt` is
defined). -/
theorem C3_best_alternative (df : DataFrame) (mem : Typology → ScoreSet) (target : Typology) :
    ∃ b, best_alt df mem target = some b ∧ b.1 ≠ target ∧ b.1 ∈ program_options ∧
      b.2 = compatibility df (mem b.1) b.1 ∧
      ∀ q : Typology, q ≠ target → compatibility df (mem q) q ≤ b.2 := by
  have hmemq : ∀ q : Typology, q ≠ target →
      (q, compatibility df (mem q) q) ∈
        (comp_df df mem).filter (fun x => decide (x.1 ≠ target)) := by
    intro q hq
    apply List.mem_filter.mpr
    refine ⟨?_, by simpa using hq⟩
    rw [comp_df]
    exact List.mem_mergeSort.mpr (List.mem_map.mpr ⟨q, mem_program_options q, rfl⟩)
  have hne : (comp_df df mem).filter (fun x => decide (x.1 ≠ target)) ≠ [] :=
    List.ne_nil_of_mem (hmemq (altTypology target) (altTypology_ne target))
  obtain ⟨b, hb⟩ : ∃ b, ((comp_df df mem).filter (fun x => decide (x.1 ≠ target))).head? = some b := by
    cases hFc : (comp_df df mem).filter (fun x => decide (x.1 ≠ target)) with
    | nil => exact absurd hFc hne
    | cons a t => exact ⟨a, rfl⟩
  have hbF : b ∈ (comp_df df mem).filter (fun x => decide (x.1 ≠ target)) := by
    obtain ⟨ys, hys⟩ := List.head?_eq_some_iff.mp hb
    rw [hys]
    exact List.mem_cons_self _ _
  have hbC : b ∈ comp_df df mem := List.mem_of_mem_filter hbF
  have hbD : b ∈ comparison_data df mem := by
    rw [comp_df] at hbC
    exact List.mem_mergeSort.mp hbC
  obtain ⟨p, hpmem, hpeq⟩ := List.mem_map.mp hbD
  have hbne : b.1 ≠ target := by simpa using (List.mem_filter.mp hbF).2
  have hsorted : (comp_df df mem).Pairwise (fun a c => descBy2 a c) := by
    rw [comp_df]
    exact List.sorted_mergeSort descBy2_trans descBy2_total (comparison_data df mem)
  have hpwF : ((comp_df df mem).filter (fun x => decide (x.1 ≠ target))).Pairwise
      (fun a c => descBy2 a c) :=
    List.Pairwise.sublist (List.filter_sublist _) hsorted
  refine ⟨b, hb, hbne, ?_, ?_, ?_⟩
  · rw [← hpeq]
    exact mem_program_options p
  · rw [← hpeq]
  · intro q hq
    rcases head_of_pairwise hpwF hb (hmemq q hq) with heq | hle
    · rw [← heq]
    · simpa [descBy2] using hle

/-- Witness for C3 at the worked-example table with its freshly
initialised memory and target typology Housing. -/
theorem C3_best_alternative_witness :
    ∃ b, best_alt exampleDf (program_memory exampleDf) Typology.Housing = some b ∧
      b.1 ≠ Typology.Housing ∧ b.1 ∈ program_options ∧
      b.2 = compatibility exampleDf (program_memory exampleDf b.1) b.1 ∧
      ∀ q : Typology, q ≠ Typology.Housing →
        compatibility exampleDf (program_memory exampleDf q) q ≤ b.2 :=
  C3_best_alternative exampleDf (program_memory exampleDf) Typology.Housing

/-- C4: the loader never lets a failure escape: on any fetch error it
returns the empty criteria table together with the user-visible
connection warning, and on success it returns the table with
whitespace-trimmed column names and no warning. -/
theorem C4_loader_failure_recovery :
    (∀ e : String, load_live_data (Except.error e)
      = (emptyDataFrame, some ("Connection Error: " ++ e))) ∧
    (∀ t : RawTable, load_live_data (Except.ok t)
      = ({ columns := t.columns.map (fun c => c.trim), rows := t.rows }, none)) :=
  ⟨fun _ => rfl, fun _ => rfl⟩

/-- Inserting a key makes it looked up with the inserted value. -/
theorem dictInsert_lookup_self (m : ScoreSet) (n : String) (v : ℚ) :
    (dictInsert m n v).lookup n = some v := by
  induction m with
  | nil => simp [dictInsert, List.lookup]
  | cons kw t ih =>
    obtain ⟨k, w⟩ := kw
    by_cases hk : k = n
    · subst hk
      simp [dictInsert, List.lookup]
    · have hbeq : (n == k) = false := beq_eq_false_iff_ne.mpr (Ne.symm hk)
      simp [dictInsert, hk, List.lookup, hbeq, ih]

/-- Inserting one key leaves the lookup of any other key unchanged. -/
theorem dictInsert_lookup_ne (m : ScoreSet) (n nq : String) (v : ℚ) (h : nq ≠ n) :
    (dictInsert m n v).lookup nq = m.lookup nq := by
  induction m with
  | nil =>
    have hbeq : (nq == n) = false := beq_eq_false_iff_ne.mpr h
    simp [dictInsert, List.lookup, hbeq]
  | cons kw t ih =>
    obtain ⟨k, w⟩ := kw
    by_cases hk : k = n
    · subst hk
      have hbeq : (nq == k) = false := beq_eq_false_iff_ne.mpr h
      simp [dictInsert, List.lookup, hbeq]
    · by_cases hq : nq = k
      · subst hq
        simp [dictInsert, hk, List.lookup]
      · have hbeq : (nq == k) = false := beq_eq_false_iff_ne.mpr hq
        simp [dictInsert, hk, List.lookup, hbeq, ih]

/-- Once a criterion reads as score zero, folding in further rows of the
initialiser keeps it at zero. -/
theorem foldl_init_preserve (df : DataFrame) : ∀ (m : ScoreSet) (n : String),
    m.lookup n = some 0 →
    (df.foldl (fun acc r => dictInsert acc r.criterion 0) m).lookup n = some 0 := by
  induction df with
  | nil => intro m n h; simpa using h
  | cons r t ih =>
    intro m n h
    rw [List.foldl_cons]
    apply ih
    by_cases hc : n = r.criterion
    · subst hc
      exact dictInsert_lookup_self m r.criterion 0
    · rw [dictInsert_lookup_ne m r.criterion n 0 hc]
      exact h

/-- Every row folded into the initialiser ends up with score zero. -/
theorem foldl_init_mem (df : DataFrame) : ∀ (m : ScoreSet) (r : Row), r ∈ df →
    (df.foldl (fun acc x => dictInsert acc x.criterion 0) m).lookup r.criterion = some 0 := by
  induction df with
  | nil => intro m r h; cases h
  | cons a t ih =>
    intro m r h
    rw [List.foldl_cons]
    rcases List.mem_cons.mp h with rfl | ht
    · exact foldl_init_preserve t _ _ (dictInsert_lookup_self m r.criterion 0)
    · exact ih _ r ht

/-- C7: after initialisation from a non-empty criteria table, every
criterion of the table has an entry (with the default score 0) in every
one of the four typologies' ScoreSets, and the scoring total function
treats any missing score entry as the default 0, so no lookup can
fail. -/
theorem C7_memory_covers_store (df : DataFrame) (p : Typology) (r : Row)
    (_hdf : df ≠ []) (hr : r ∈ df) :
    (program_memory df p).lookup r.criterion = some 0 ∧
    (∀ (scores : ScoreSet) (name : String), scores.lookup name = none →
      effScore scores name = 0) := by
  constructor
  · rw [program_memory, initScores]
    exact foldl_init_mem df [] r hr
  · intro scores name h
    rw [effScore, h]
    rfl

/-- Witness for C7 at the worked-example table and its first row. -/
theorem C7_memory_covers_store_witness :
    (program_memory exampleDf Typology.Housing).lookup exampleRowA.criterion = some 0 :=
  (C7_memory_covers_store exampleDf Typology.Housing exampleRowA
    (by simp [exampleDf]) (List.mem_cons_self _ _)).1

/-- The keys of an insert: unchanged when the key is present, appended
otherwise. -/
theorem dictInsert_keys (m : ScoreSet) (n : String) (v : ℚ) :
    (dictInsert m n v).map Prod.fst
      = if (m.lookup n).isSome then m.map Prod.fst else m.map Prod.fst ++ [n] := by
  induction m with
  | nil => simp [dictInsert, List.lookup]
  | cons kw t ih =>
    obtain ⟨k, w⟩ := kw
    by_cases hk : k = n
    · subst hk
      simp [dictInsert, List.lookup]
    · have hbeq : (n == k) = false := beq_eq_false_iff_ne.mpr (Ne.symm hk)
      by_cases hl : (t.lookup n).isSome
      · simp [dictInsert, hk, List.lookup, hbeq, hl, ih]
      · simp [dictInsert, hk, List.lookup, hbeq, hl, ih]

/-- A key looks up to nothing exactly when it is not among the keys. -/
theorem lookup_eq_none_iff_keys (m : ScoreSet) (n : String) :
    m.lookup n = none ↔ n ∉ m.map Prod.fst := by
  induction m with
  | nil => simp
  | cons kw t ih =>
    obtain ⟨k, w⟩ := kw
    by_cases hk : n = k
    · subst hk
      simp [List.lookup]
    · have hbeq : (n == k) = false := beq_eq_false_iff_ne.mpr hk
      simp [List.lookup, hbeq, hk, ih]

/-- A key looks up to something exactly when it is among the keys. -/
theorem lookup_isSome_iff_keys (m : ScoreSet) (n : String) :
    (m.lookup n).isSome ↔ n ∈ m.map Prod.fst := by
  constructor
  · intro h
    by_contra hmem
    rw [← lookup_eq_none_iff_keys] at hmem
    rw [hmem] at h
    simp at h
  · intro h
    by_contra hs
    rw [Option.not_isSome_iff_eq_none, lookup_eq_none_iff_keys] at hs
    exact hs h

/-- Folding the initialiser never duplicates a key. -/
theorem foldl_keys_nodup (df : DataFrame) : ∀ m : ScoreSet, (m.map Prod.fst).Nodup →
    ((df.foldl (fun acc x => dictInsert acc x.criterion 0) m).map Prod.fst).Nodup := by
  induction df with
  | nil => intro m h; simpa using h
  | cons a t ih =>
    intro m h
    rw [List.foldl_cons]
    apply ih
    rw [dictInsert_keys]
    split
    · exact h
    · rename_i hnone
      have hmem : a.criterion ∉ m.map Prod.fst := by
        rw [← lookup_eq_none_iff_keys]
        exact Option.not_isSome_iff_eq_none.mp hnone
      simp [List.nodup_append, h, hmem]

/-- Key membership after a single insert. -/
theorem mem_dictInsert_keys (m : ScoreSet) (c n : String) (v : ℚ) :
    n ∈ (dictInsert m c v).map Prod.fst ↔ n ∈ m.map Prod.fst ∨ n = c := by
  rw [dictInsert_keys]
  split
  · rename_i hsome
    constructor
    · exact Or.inl
    · rintro (h | rfl)
      · exact h
      · exact (lookup_isSome_iff_keys m n).mp hsome
  · simp

/-- Key membership after folding the whole initialiser. -/
theorem foldl_keys_mem (df : DataFrame) : ∀ (m : ScoreSet) (n : String),
    n ∈ ((df.foldl (fun acc x => dictInsert acc x.criterion 0) m).map Prod.fst)
      ↔ n ∈ m.map Prod.fst ∨ n ∈ df.map (fun r => r.criterion) := by
  induction df with
  | nil => intro m n; simp
  | cons a t ih =>
    intro m n
    rw [List.foldl_cons, ih, mem_dictInsert_keys]
    simp only [List.map_cons, List.mem_cons]
    tauto

/-- Two table rows sharing the criterion name "X", with different
weights 30 and 50. -/
def dupRow1 : Row := ⟨"Cat", "X", "", fun _ => 30⟩

/-- The second row with the duplicated name "X". -/
def dupRow2 : Row := ⟨"Cat", "X", "", fun _ => 50⟩

/-- A criteria table containing a duplicated criterion name. -/
def dupDf : DataFrame := [dupRow1, dupRow2]

/-- Scores for the duplicated table: the one shared entry scores 5. -/
def dupScores : ScoreSet := [("X", 5)]

/-- C10: duplicated criterion names collapse to one shared score entry
per typology ScoreSet (keys are unique, and a key is present exactly
when some row carries it), while the compatibility sum still walks the
rows, counting each duplicate row's weight separately against the one
shared score; concretely, rows X/30 and X/50 initialise to the single
entry ("X", 0) and score 30 + 50 = 80 when the shared entry is 5. -/
theorem C10_duplicate_criteria (df : DataFrame) :
    ((initScores df).map Prod.fst).Nodup ∧
    (∀ p : Typology, program_memory df p = initScores df) ∧
    (∀ n : String, ((initScores df).lookup n).isSome ↔ n ∈ df.map (fun r => r.criterion)) ∧
    (∀ (scores : ScoreSet) (p : Typology),
      compatibility df scores p
        = (df.map (fun r => effScore scores r.criterion / 5 * r.weight p)).sum) ∧
    (initScores dupDf = [("X", 0)] ∧
      compatibility dupDf dupScores Typology.Housing = 80) := by
  refine ⟨?_, fun _ => rfl, ?_, fun _ _ => rfl, ?_, ?_⟩
  · rw [initScores]
    exact foldl_keys_nodup df [] (by simp)
  · intro n
    rw [initScores, lookup_isSome_iff_keys, foldl_keys_mem]
    simp
  · rfl
  · have hX : effScore dupScores "X" = 5 := rfl
    simp [compatibility, dupDf, dupRow1, dupRow2, hX]
    norm_num
